import Mathlib

/-!
Verification of the ComplyNext ingestion / retrieval core.

Shallow embedding of the Python sources under `src/`:
  * `src/openai_manager/connector.py` — `retry` decorator, `OPENAI_MANAGER.get_embeddings`,
    `_load_embedding_cache` / `_save_embedding_cache` (embedding cache persistence);
  * `src/rag/keyword_extraction.py` — `extract_keywords_llm`;
  * `src/rag/rag_engine.py` — the reference `hybrid_search` (RRF fusion);
  * `src/rag/rag_db.py` — `DatabaseRAGPipeline._retrieve_chunks` (retrieval logging);
  * `src/ingestion/companies/data_ingestion.py` — `create_sentence_chunks`,
    `check_document_exists`, `check_chunks_exist`, `insert_document`,
    `embed_and_store_chunks`, and the per-record body of `ingest_json`.

Conventions: Python `None`-able values become `Option`; Python exceptions become
`Except`; machine reals (Python floats) are modelled by exact rationals `ℚ`;
external collaborators (the OpenAI client, the PDF chunker, `json.loads`,
the vector store retriever) are universally-quantified function parameters.
Python string primitives (`str.strip`, `str.join`, …) are modelled by
executable helpers over `List Char` so that concrete witnesses evaluate
inside the kernel.
-/

/-- Embedding vectors, abstractly: lists of rationals. -/
abbrev Vec := List ℚ

/-! ### Python string primitives -/

/-- Python `str.strip()`: remove leading and trailing whitespace. -/
def pyStrip (s : String) : String :=
  String.mk (((s.data.dropWhile Char.isWhitespace).reverse.dropWhile
    Char.isWhitespace).reverse)

/-- Python `len(s)`: number of characters. -/
def pyLen (s : String) : Nat := s.data.length

/-- Python `sep.join(parts)`. -/
def pyJoin (sep : String) (parts : List String) : String :=
  String.mk (((parts.map String.data).intersperse sep.data).flatten)

/-! ### `retry` decorator (src/openai_manager/connector.py, lines 15–43)

`Config.OPENAI_RETRY = 3` (src/config.py).  The wrapper runs the wrapped call
for `cur_attempt in range(Config.OPENAI_RETRY)`; on success it returns the
call's value, on an exception it logs, sleeps and continues.  When the loop
exhausts all attempts the function body ends, so Python returns `None`.
The wrapped call is modelled as `f : Nat → Except ε α` giving each attempt's
outcome (`.ok` = normal return, `.error` = raised exception). -/
def OPENAI_RETRY : Nat := 3

/-- Loop of the `retry` wrapper: `i` is the current attempt index, the second
argument the number of attempts left.  Falling out of the loop returns
`none` — Python's implicit `None` after the final log statement. -/
def retryLoop (f : Nat → Except ε α) : Nat → Nat → Option α
  | _, 0 => none
  | i, k + 1 =>
    match f i with
    | .ok a => some a
    | .error _ => retryLoop f (i + 1) k

/-- The `retry` decorator applied to a call `f`. -/
def retry (f : Nat → Except ε α) : Option α :=
  retryLoop f 0 OPENAI_RETRY

/-! ### Cache-backed embedder (src/openai_manager/connector.py, lines 61–96)

`get_embeddings` strips the text, and on a miss of the in-memory cache issues
one provider call and stores the vector under the stripped text; it returns
`self.embedding_cache.get(cleaned)`.  The provider is modelled as a function
of the running count of external calls, so distinct calls may return
anything.  (The `@retry` wrapper is the identity on the success path
modelled here: the body raises no exception.) -/
structure EmbState where
  cache : List (String × Vec)
  calls : Nat
deriving DecidableEq

/-- One call of `OPENAI_MANAGER.get_embeddings`.  The guard
`if (cleaned) and (cleaned not in self.embedding_cache)` is rendered as the
nested empty-test and cache lookup.  Returns the new state and the returned
value (`None` only when the stripped text is empty and uncached). -/
def get_embeddings (provider : Nat → Vec) (st : EmbState) (text : String) :
    EmbState × Option Vec :=
  let cleaned := pyStrip text
  if cleaned = "" then (st, st.cache.lookup cleaned)
  else
    match st.cache.lookup cleaned with
    | some v => (st, some v)
    | none =>
      let v := provider st.calls
      let st2 : EmbState := ⟨st.cache ++ [(cleaned, v)], st.calls + 1⟩
      (st2, st2.cache.lookup cleaned)

/-- State of one OS process running the connector: the in-memory cache plus the
durable cache file at `OPENAI_MANAGER.CACHE_PATH`. -/
structure ProcState where
  mem : EmbState
  file : List (String × Vec)
deriving DecidableEq

/-- One `get_embeddings` call at process level.  The method touches only the
in-memory dictionary; nothing in the repository writes the cache file
(`_save_embedding_cache` is defined at connector.py line 70 but has no call
site anywhere under `src/`). -/
def procStep (provider : Nat → Vec) (ps : ProcState) (text : String) : ProcState :=
  { ps with mem := (get_embeddings provider ps.mem text).1 }

/-- A whole process run: `__init__` calls `_load_embedding_cache` (the file
content becomes the in-memory cache, call counter 0), then the process makes
a sequence of `get_embeddings` calls and exits.  No step of the run invokes
`_save_embedding_cache`. -/
def runProcess (provider : Nat → Vec) (file : List (String × Vec))
    (texts : List String) : ProcState :=
  texts.foldl (procStep provider) ⟨⟨file, 0⟩, file⟩

/-! ## Theorems for C1, C3, C7 -/

/-- Helper: looking a fresh key up after appending its binding. -/
theorem lookup_append_self {l : List (String × Vec)} {k : String} {v : Vec}
    (h : l.lookup k = none) : (l ++ [(k, v)]).lookup k = some v := by
  induction l with
  | nil => simp [List.lookup]
  | cons p rest ih =>
    rw [List.lookup] at h
    rcases hk : (k == p.1) with _ | _
    · rw [hk] at h
      simpa [List.lookup, hk] using ih h
    · rw [hk] at h
      simp at h

/-- Helper: appending a binding for a different key does not change a lookup. -/
theorem lookup_append_ne {l : List (String × Vec)} {k k2 : String} {v : Vec}
    (h : k ≠ k2) : (l ++ [(k2, v)]).lookup k = l.lookup k := by
  induction l with
  | nil =>
    have hb : (k == k2) = false := beq_false_of_ne h
    simp [List.lookup, hb]
  | cons p rest ih =>
    rcases hk : (k == p.1) with _ | _
    · simp [List.lookup, hk, ih]
    · simp [List.lookup, hk]

/-- C1: for a wrapped call that raises on every one of the
`Config.OPENAI_RETRY` attempts, the `retry` wrapper returns `None` — it
neither re-raises nor returns an error value, so the failure is silently
masked as a successful-looking `None` result.  This contradicts the claim
(and the spec's normative requirement) that the wrapper must surface the
failure; the spec itself flags this reference behavior as the retry-swallow
issue. -/
theorem retry_swallows_exhausted_failure (f : Nat → Except String Nat)
    (h : ∀ i, ∃ e, f i = .error e) : retry f = none := by
  have loop : ∀ k i, retryLoop f i k = none := by
    intro k
    induction k with
    | zero => intro i; rfl
    | succ k ih =>
      intro i
      obtain ⟨e, he⟩ := h i
      rw [retryLoop, he]
      exact ih (i + 1)
  exact loop OPENAI_RETRY 0

/-- C1 witness: a call failing on every attempt, concretely. -/
theorem retry_swallows_exhausted_failure_witness :
    retry (fun _ => (Except.error "boom" : Except String Nat)) = none :=
  retry_swallows_exhausted_failure _ (fun _ => ⟨"boom", rfl⟩)

/-- C3: no process run ever writes the durable cache file: the final file
content equals the initial one for every provider, initial file and call
sequence (first conjunct), even though a run does add new entries to the
in-memory cache (second conjunct: after embedding `"hello"` from an empty
cache file the memory holds the new entry), so the entry is absent from the
file a restart would load (third conjunct).  `_save_embedding_cache` exists
but is called nowhere in the repository, contradicting the claim that the
cache is persisted after every run in which `get_embeddings` added an
entry. -/
theorem embedding_cache_never_persisted :
    (∀ (provider : Nat → Vec) (file : List (String × Vec)) (texts : List String),
      (runProcess provider file texts).file = file)
    ∧ (runProcess (fun _ => [1]) [] ["hello"]).mem.cache.lookup "hello" = some [1]
    ∧ (runProcess (fun _ => [1]) [] ["hello"]).file.lookup "hello" = none := by
  refine ⟨fun provider file texts => ?_, by decide, by decide⟩
  suffices h : ∀ ps : ProcState, (texts.foldl (procStep provider) ps).file = ps.file by
    exact h _
  induction texts with
  | nil => intro ps; rfl
  | cons t ts ih => intro ps; exact ih _

/-- Helper: the first `get_embeddings` call on a non-empty, uncached text. -/
theorem get_embeddings_miss (provider : Nat → Vec) (st : EmbState) (t : String)
    (ht : pyStrip t ≠ "") (hm : st.cache.lookup (pyStrip t) = none) :
    get_embeddings provider st t
      = (⟨st.cache ++ [(pyStrip t, provider st.calls)], st.calls + 1⟩,
         some (provider st.calls)) := by
  rw [get_embeddings]
  simp only [if_neg ht, hm, lookup_append_self hm]

/-- Helper: a `get_embeddings` call on a non-empty, cached text. -/
theorem get_embeddings_hit (provider : Nat → Vec) (st : EmbState) (t : String)
    (ht : pyStrip t ≠ "") {v : Vec} (hm : st.cache.lookup (pyStrip t) = some v) :
    get_embeddings provider st t = (st, some v) := by
  rw [get_embeddings]
  simp only [if_neg ht, hm]

/-- C7 (as amended): cache correctness of `get_embeddings`.
Part A: for a text `t` whose stripped form is non-empty and not yet cached,
two successive calls issue exactly one external call (the first call bumps
the counter and appends the entry keyed by the stripped text; the second
call leaves the state untouched) and both return the vector produced by
that single external call.
Part B: for two texts whose stripped forms are distinct, non-empty and not
yet cached, the two calls issue exactly two external calls and append
exactly two cache entries, each keyed by the stripped text. -/
theorem get_embeddings_cache_correctness (provider : Nat → Vec) (st : EmbState)
    (t t1 t2 : String)
    (ht : pyStrip t ≠ "") (hm : st.cache.lookup (pyStrip t) = none)
    (h1 : pyStrip t1 ≠ "") (h2 : pyStrip t2 ≠ "") (h12 : pyStrip t1 ≠ pyStrip t2)
    (hm1 : st.cache.lookup (pyStrip t1) = none)
    (hm2 : st.cache.lookup (pyStrip t2) = none) :
    ((get_embeddings provider st t).1.cache
        = st.cache ++ [(pyStrip t, provider st.calls)]
      ∧ (get_embeddings provider st t).1.calls = st.calls + 1
      ∧ (get_embeddings provider st t).2 = some (provider st.calls)
      ∧ get_embeddings provider (get_embeddings provider st t).1 t
          = ((get_embeddings provider st t).1, some (provider st.calls)))
    ∧ ((get_embeddings provider (get_embeddings provider st t1).1 t2).1.cache
        = st.cache ++ [(pyStrip t1, provider st.calls),
                       (pyStrip t2, provider (st.calls + 1))]
      ∧ (get_embeddings provider (get_embeddings provider st t1).1 t2).1.calls
          = st.calls + 2) := by
  constructor
  · have hfirst := get_embeddings_miss provider st t ht hm
    have hhit : (st.cache ++ [(pyStrip t, provider st.calls)]).lookup (pyStrip t)
        = some (provider st.calls) := lookup_append_self hm
    refine ⟨by rw [hfirst], by rw [hfirst], by rw [hfirst], ?_⟩
    rw [hfirst]
    exact get_embeddings_hit provider _ t ht hhit
  · have hfirst := get_embeddings_miss provider st t1 h1 hm1
    have hmiss2 : (st.cache ++ [(pyStrip t1, provider st.calls)]).lookup (pyStrip t2)
        = none := by
      rw [lookup_append_ne (Ne.symm h12), hm2]
    rw [hfirst]
    rw [get_embeddings_miss provider _ t2 h2 hmiss2]
    constructor
    · simp
    · rfl

/-- C7 witness: concrete run with `t = "x"`, `t1 = "a"`, `t2 = " b "` from the
empty cache; the hypotheses are discharged by evaluation. -/
theorem get_embeddings_cache_correctness_witness :
    (get_embeddings (fun n => [(n : ℚ)])
        (get_embeddings (fun n => [(n : ℚ)]) ⟨[], 0⟩ "a").1 " b ").1.cache
      = [("a", [0]), ("b", [1])] := by
  have h := get_embeddings_cache_correctness (fun n => [(n : ℚ)]) ⟨[], 0⟩
    "x" "a" " b " (by decide) rfl (by decide) (by decide) (by decide) rfl rfl
  have h2 := h.2.1
  simpa using h2

/-- C7 counterexample: the claim as stated demands that for any two texts with
distinct stripped forms the two calls issue exactly two external calls and
produce two cache entries.  For `"a"` and `" "` (stripped forms `"a"` and
`""`, which are distinct) the code issues only one external call and stores
only one entry: an empty stripped text never triggers a provider call. -/
theorem get_embeddings_distinct_texts_counterexample :
    ((get_embeddings (fun _ => [1])
        (get_embeddings (fun _ => [1]) ⟨[], 0⟩ "a").1 " ").1.calls = 1
      ∧ (get_embeddings (fun _ => [1])
        (get_embeddings (fun _ => [1]) ⟨[], 0⟩ "a").1 " ").1.cache.length = 1)
    ∧ ¬ ((get_embeddings (fun _ => [1])
        (get_embeddings (fun _ => [1]) ⟨[], 0⟩ "a").1 " ").1.calls = 2) := by
  decide

/-! ### Hybrid search with Reciprocal Rank Fusion (src/rag/rag_engine.py, lines 60–108)

The reference implementation of `RAGEngine.hybrid_search` (present in the
source as a commented-out method, the claim's cited code) takes the top-50
vector branch and the top-50 lexical branch, then builds a Python dict
`rrf_score` by iterating `enumerate(vector_results)` and then
`enumerate(keyword_results)`, adding `1 / (alpha + rank)` for each
occurrence; it sorts the dict keys by score with `sorted(..., reverse=True)`
(a stable sort), truncates to `limit`, and maps ids back through a lookup
that contains every id from either branch.  Chunk ids are `Nat`; the two
branch rankings are the id lists in rank order; float arithmetic is
modelled exactly over `ℚ`. -/
abbrev ChunkId := Nat

/-- One `for rank, doc in enumerate(branch)` pass updating the score dict,
starting at rank `r`.  The dict is modelled as a total function that is `0`
on absent keys (`rrf_score.get(doc.id, 0)`). -/
def addBranchFrom (alpha : ℚ) : ℚ → List ChunkId → (ChunkId → ℚ) → (ChunkId → ℚ)
  | _, [], sc => sc
  | r, i :: rest, sc =>
    addBranchFrom alpha (r + 1) rest
      (fun j => if j = i then sc i + 1 / (alpha + r) else sc j)

/-- The fused RRF score dict after both passes (vector first, then lexical),
as in the source. -/
def rrf_score (alpha : ℚ) (vec lex : List ChunkId) : ChunkId → ℚ :=
  addBranchFrom alpha 0 lex (addBranchFrom alpha 0 vec (fun _ => 0))

/-- Key insertion order of the Python dict: keys appear in first-touch order. -/
def dictInsertKeys (acc : List ChunkId) (l : List ChunkId) : List ChunkId :=
  l.foldl (fun acc2 i => if i ∈ acc2 then acc2 else acc2 ++ [i]) acc

/-- The key list of `rrf_score` after both passes. -/
def rrfKeys (vec lex : List ChunkId) : List ChunkId :=
  dictInsertKeys (dictInsertKeys [] vec) lex

/-- Embeds `hybrid_search`, reduced to the id lists it returns:
`sorted(rrf_score, key=rrf_score.get, reverse=True)[:limit]` is a stable
descending sort of the dict keys (modelled by `List.insertionSort`, the
canonical stable sort) followed by truncation; the final loop keeps ids
found in the `lookup` dict built from both branch results. -/
def hybrid_search_ids (alpha : ℚ) (limit : Nat) (vec lex : List ChunkId) :
    List ChunkId :=
  ((List.insertionSort
      (fun a b => rrf_score alpha vec lex b ≤ rrf_score alpha vec lex a)
      (rrfKeys vec lex)).take limit).filter
    (fun i => decide (i ∈ vec ++ lex))

/-! ## Theorems for C2 -/

/-- Helper: value of the score dict after one branch pass, for a duplicate-free
ranking: present ids gain `1 / (alpha + r + rank)` at their 0-based rank. -/
theorem addBranchFrom_apply (alpha : ℚ) :
    ∀ (l : List ChunkId), l.Nodup → ∀ (r : ℚ) (sc : ChunkId → ℚ) (id : ChunkId),
      addBranchFrom alpha r l sc id
        = sc id + (if id ∈ l then 1 / (alpha + r + (l.indexOf id : ℚ)) else 0) := by
  intro l
  induction l with
  | nil => intro _ r sc id; simp [addBranchFrom]
  | cons i rest ih =>
    intro hnd r sc id
    obtain ⟨hni, hrest⟩ := List.nodup_cons.mp hnd
    rw [addBranchFrom, ih hrest]
    by_cases hid : id = i
    · subst hid
      have hmem : id ∈ id :: rest := List.mem_cons_self id rest
      simp only [if_pos rfl, if_neg hni, if_pos hmem, List.indexOf_cons_self]
      push_cast
      ring
    · simp only [if_neg hid]
      by_cases hmem : id ∈ rest
      · have hmem2 : id ∈ i :: rest := List.mem_cons_of_mem i hmem
        have hidx : List.indexOf id (i :: rest) = (List.indexOf id rest) + 1 :=
          List.indexOf_cons_ne rest (fun h => hid h.symm)
        simp only [if_pos hmem, if_pos hmem2, hidx]
        push_cast
        ring
      · have hmem2 : id ∉ i :: rest := by
          intro h
          rcases List.mem_cons.mp h with h1 | h2
          · exact hid h1
          · exact hmem h2
        simp only [if_neg hmem, if_neg hmem2]

/-- Helper: membership in the dict key list. -/
theorem mem_dictInsertKeys :
    ∀ (l acc : List ChunkId) (id : ChunkId),
      id ∈ dictInsertKeys acc l ↔ id ∈ acc ∨ id ∈ l := by
  intro l
  induction l with
  | nil => intro acc id; simp [dictInsertKeys]
  | cons i rest ih =>
    intro acc id
    have step : dictInsertKeys acc (i :: rest)
        = dictInsertKeys (if i ∈ acc then acc else acc ++ [i]) rest := by
      rw [dictInsertKeys, List.foldl_cons]; rfl
    rw [step, ih]
    by_cases h : i ∈ acc
    · simp only [if_pos h, List.mem_cons]
      constructor
      · rintro (ha | hr)
        · exact Or.inl ha
        · exact Or.inr (Or.inr hr)
      · rintro (ha | he | hr)
        · exact Or.inl ha
        · exact Or.inl (he ▸ h)
        · exact Or.inr hr
    · simp only [if_neg h, List.mem_append, List.mem_singleton, List.mem_cons]
      tauto

/-- Helper: the fused ids are exactly those of the two branches. -/
theorem mem_rrfKeys (vec lex : List ChunkId) (id : ChunkId) :
    id ∈ rrfKeys vec lex ↔ id ∈ vec ∨ id ∈ lex := by
  rw [rrfKeys, mem_dictInsertKeys, mem_dictInsertKeys]
  simp

/-- C2: RRF fusion of `hybrid_search` with `alpha = 60`, for duplicate-free
branch rankings.  (a) Every chunk's fused score is the sum, over the
branches in which it appears, of `1 / (60 + rank)` at its own 0-based rank.
(b) The returned ids are the stable descending sort of the fused keys
truncated to `limit` (the final lookup filter drops nothing).  (c) The
returned list is sorted by descending fused score and (d) has at most
`limit` elements.  (e) On the claim's instance — vector ranking `[A,B,C]`,
lexical ranking `[B,D]`, encoded as ids `A=0, B=1, C=2, D=3` — chunk B's
fused score is exactly `1/60 + 1/61` and B ranks at least as high as every
chunk that appears in only one branch. -/
theorem hybrid_search_rrf_fusion (vec lex : List ChunkId)
    (hv : vec.Nodup) (hl : lex.Nodup) (limit : Nat) :
    (∀ id, rrf_score 60 vec lex id
        = (if id ∈ vec then 1 / (60 + (vec.indexOf id : ℚ)) else 0)
          + (if id ∈ lex then 1 / (60 + (lex.indexOf id : ℚ)) else 0))
    ∧ hybrid_search_ids 60 limit vec lex
        = (List.insertionSort
            (fun a b => rrf_score 60 vec lex b ≤ rrf_score 60 vec lex a)
            (rrfKeys vec lex)).take limit
    ∧ (hybrid_search_ids 60 limit vec lex).Pairwise
        (fun a b => rrf_score 60 vec lex b ≤ rrf_score 60 vec lex a)
    ∧ (hybrid_search_ids 60 limit vec lex).length ≤ limit
    ∧ (vec = [0, 1, 2] → lex = [1, 3] →
        rrf_score 60 vec lex 1 = 1 / 60 + 1 / 61
        ∧ ∀ id ∈ ([0, 2, 3] : List ChunkId),
            (hybrid_search_ids 60 5 vec lex).indexOf 1
              ≤ (hybrid_search_ids 60 5 vec lex).indexOf id) := by
  have hformula : ∀ id, rrf_score 60 vec lex id
      = (if id ∈ vec then 1 / (60 + (vec.indexOf id : ℚ)) else 0)
        + (if id ∈ lex then 1 / (60 + (lex.indexOf id : ℚ)) else 0) := by
    intro id
    rw [rrf_score, addBranchFrom_apply 60 lex hl, addBranchFrom_apply 60 vec hv]
    simp only [zero_add, add_zero]
  have hfilter : hybrid_search_ids 60 limit vec lex
      = (List.insertionSort
          (fun a b => rrf_score 60 vec lex b ≤ rrf_score 60 vec lex a)
          (rrfKeys vec lex)).take limit := by
    rw [hybrid_search_ids]
    apply List.filter_eq_self.mpr
    intro a ha
    have h1 : a ∈ List.insertionSort
        (fun a b => rrf_score 60 vec lex b ≤ rrf_score 60 vec lex a)
        (rrfKeys vec lex) := (List.take_subset _ _) ha
    have h2 : a ∈ rrfKeys vec lex :=
      (List.perm_insertionSort _ _).subset h1
    have h3 : a ∈ vec ++ lex := by
      rcases (mem_rrfKeys vec lex a).mp h2 with h | h
      · exact List.mem_append_left _ h
      · exact List.mem_append_right _ h
    exact decide_eq_true h3
  haveI hTot : IsTotal ChunkId
      (fun a b => rrf_score 60 vec lex b ≤ rrf_score 60 vec lex a) :=
    ⟨fun a b => (le_total _ _).symm⟩
  haveI hTr : IsTrans ChunkId
      (fun a b => rrf_score 60 vec lex b ≤ rrf_score 60 vec lex a) :=
    ⟨fun _ _ _ hab hbc => le_trans hbc hab⟩
  have hsorted : (hybrid_search_ids 60 limit vec lex).Pairwise
      (fun a b => rrf_score 60 vec lex b ≤ rrf_score 60 vec lex a) := by
    have hs := List.sorted_insertionSort
      (fun a b => rrf_score 60 vec lex b ≤ rrf_score 60 vec lex a)
      (rrfKeys vec lex)
    have hsub : List.Sublist (hybrid_search_ids 60 limit vec lex)
        (List.insertionSort
          (fun a b => rrf_score 60 vec lex b ≤ rrf_score 60 vec lex a)
          (rrfKeys vec lex)) := by
      rw [hybrid_search_ids]
      exact (List.filter_sublist _).trans (List.take_sublist _ _)
    exact List.Pairwise.sublist hsub hs
  have hlen : (hybrid_search_ids 60 limit vec lex).length ≤ limit := by
    rw [hfilter]
    exact (List.length_take_le _ _)
  refine ⟨hformula, hfilter, hsorted, hlen, fun hveq hleq => ?_⟩
  subst hveq; subst hleq
  constructor
  · have m1 : (1 : ChunkId) ∈ [0, 1, 2] := by decide
    have m2 : (1 : ChunkId) ∈ [1, 3] := by decide
    have i1 : List.indexOf (1 : ChunkId) [0, 1, 2] = 1 := rfl
    have i2 : List.indexOf (1 : ChunkId) [1, 3] = 0 := rfl
    rw [hformula 1, if_pos m1, if_pos m2, i1, i2]
    push_cast
    norm_num
  · have hkeys : rrfKeys [0, 1, 2] [1, 3] = [0, 1, 2, 3] := by decide
    have hsort : List.insertionSort
        (fun a b => rrf_score 60 [0, 1, 2] [1, 3] b ≤ rrf_score 60 [0, 1, 2] [1, 3] a)
        [0, 1, 2, 3] = [1, 0, 3, 2] := by
      simp only [List.insertionSort, List.orderedInsert]
      norm_num [rrf_score, addBranchFrom]
    have hout : hybrid_search_ids 60 5 [0, 1, 2] [1, 3] = [1, 0, 3, 2] := by
      rw [hybrid_search_ids, hkeys, hsort]
      decide
    intro id hid
    rw [hout]
    have h1 : List.indexOf (1 : ChunkId) [1, 0, 3, 2] = 0 := rfl
    rw [h1]
    exact Nat.zero_le _

/-- C2 witness: the theorem applied to the claim's concrete instance
(vector ranking `[A,B,C] = [0,1,2]`, lexical ranking `[B,D] = [1,3]`). -/
theorem hybrid_search_rrf_fusion_witness :
    rrf_score 60 [0, 1, 2] [1, 3] 1 = 1 / 60 + 1 / 61 :=
  ((hybrid_search_rrf_fusion [0, 1, 2] [1, 3] (by decide) (by decide) 5).2.2.2.2
    rfl rfl).1

/-! ### Keyword extraction (src/rag/keyword_extraction.py, lines 28–103)

`extract_keywords_llm` submits a prompt, strips the response content, removes
markdown code fences, parses JSON, reads `affected_sectors` and
`named_companies` via `dict.get` with `[]` defaults, and filters each list
to stripped non-empty strings capped at 40 entries.  On `json.JSONDecodeError`
or any other exception it falls back to collecting double-quoted substrings
of length 3–100 from the content (regex `"([^"]{3,100})"` via `re.findall`),
stripped, non-empty, capped at 40, as the sector list with an empty company
list; a final bare `except` returns two empty lists.  The JSON library is
abstracted as `loads : String → Option PyJson` (`none` = parse error);
Python values reachable from a parsed JSON document are `PyJson`. -/
inductive PyJson where
  | null
  | bool (b : Bool)
  | num (q : ℚ)
  | str (s : String)
  | arr (xs : List PyJson)
  | obj (kvs : List (String × PyJson))

/-- Python-level errors the modelled fragment can raise. -/
inductive PyErr where
  | attributeError
  | typeError
deriving DecidableEq

/-- Result shape of the extractor: the dict keys `affected_sectors` and
`named_companies`. -/
structure KeywordResult where
  affected_sectors : List String
  named_companies : List String
deriving DecidableEq

/-- Python `data.get(key, default)`: an `AttributeError` unless `data` is a
dict. -/
def pyGet : PyJson → String → PyJson → Except PyErr PyJson
  | .obj kvs, k, dflt => .ok ((kvs.lookup k).getD dflt)
  | _, _, _ => .error .attributeError

/-- Python iteration (`for s in x`): lists yield elements, strings yield
1-character strings, dicts yield their keys; other values raise
`TypeError`. -/
def pyIter : PyJson → Except PyErr (List PyJson)
  | .arr xs => .ok xs
  | .str s => .ok (s.data.map (fun c => PyJson.str (String.mk [c])))
  | .obj kvs => .ok (kvs.map (fun kv => PyJson.str kv.1))
  | _ => .error .typeError

/-- One step of `[s.strip() for s in xs if isinstance(s, str) and s.strip()]`. -/
def cleanItem : PyJson → Option String
  | .str s => if pyStrip s = "" then none else some (pyStrip s)
  | _ => none

/-- The whole list comprehension with the `[:40]` cap. -/
def pyCleanStrings (j : PyJson) : Except PyErr (List String) :=
  match pyIter j with
  | .error e => .error e
  | .ok xs => .ok ((xs.filterMap cleanItem).take 40)

/-- Step of `[m.strip() for m in fallback_matches if m.strip()]`. -/
def stripNonempty (m : String) : Option String :=
  if pyStrip m = "" then none else some (pyStrip m)

/-- Scan for the first closing double quote: the characters before it and the
remainder after it. -/
def grabQuoted : List Char → Option (List Char × List Char)
  | [] => none
  | c :: rest =>
    if c = '"' then some ([], rest)
    else
      match grabQuoted rest with
      | none => none
      | some (cap, r) => some (c :: cap, r)

/-- Python `re.findall` for the pattern `"([^"]{3,100})"`: scan left to right;
at a double quote whose next double quote encloses 3–100 characters, emit
the enclosed capture and continue after the closing quote; otherwise
advance one character.  The fuel argument (initially the number of
characters) makes the recursion structural; every step consumes at least
one character, so fuel `≥ length` is exact. -/
def findQuotedFuel : Nat → List Char → List String
  | 0, _ => []
  | _ + 1, [] => []
  | fuel + 1, c :: rest =>
    if c = '"' then
      match grabQuoted rest with
      | some (cap, rest2) =>
        if 3 ≤ cap.length ∧ cap.length ≤ 100 then
          String.mk cap :: findQuotedFuel fuel rest2
        else findQuotedFuel fuel rest
      | none => findQuotedFuel fuel rest
    else findQuotedFuel fuel rest

/-- The fallback match list of `re.findall` on a string. -/
def findQuoted (s : String) : List String :=
  findQuotedFuel s.data.length s.data

/-- The `except` fallback: quoted substrings as best-effort sectors, empty
companies. -/
def keywordFallback (content : String) : KeywordResult :=
  ⟨((findQuoted content).filterMap stripNonempty).take 40, []⟩

/-- The ASCII backtick character of markdown code fences. -/
def backquote : Char := Char.ofNat 96

/-- The fence opener `TICK TICK TICK json` as characters. -/
def fenceJson : List Char := [backquote, backquote, backquote, 'j', 's', 'o', 'n']

/-- A bare triple backtick. -/
def fence3 : List Char := [backquote, backquote, backquote]

/-- One line under `re.sub` with the fence pattern: drop a leading fence
opener (with following whitespace) and a trailing triple backtick.  (The
`MULTILINE` regex is modelled per line; a `\s*` run crossing a line break
is not modelled — no claim depends on the fence stripping.) -/
def stripFenceLine (l : List Char) : List Char :=
  let l1 := if l.take 7 = fenceJson then (l.drop 7).dropWhile Char.isWhitespace else l
  if l1.reverse.take 3 = fence3 then (l1.reverse.drop 3).reverse else l1

/-- Model of `re.sub(r"^TICKTICKTICKjson\s*|TICKTICKTICK$", "", content, flags=re.MULTILINE)`. -/
def stripFence (s : String) : String :=
  String.mk ((((s.data.splitOn '\n').map stripFenceLine).intersperse ['\n']).flatten)

/-- Embeds `extract_keywords_llm`, as a function of the JSON parser behavior and the
provider response content.  Every Python exception path of the original is
an explicit branch ending in the fallback; the function is total, so the
extractor never propagates an exception. -/
def extract_keywords_llm (loads : String → Option PyJson) (respContent : String) :
    KeywordResult :=
  let content := pyStrip (stripFence (pyStrip respContent))
  match loads content with
  | none => keywordFallback content
  | some data =>
    match pyGet data ("affected_sectors") (PyJson.arr []) with
    | .error _ => keywordFallback content
    | .ok s =>
      match pyGet data ("named_companies") (PyJson.arr []) with
      | .error _ => keywordFallback content
      | .ok c =>
        match pyCleanStrings s with
        | .error _ => keywordFallback content
        | .ok ss =>
          match pyCleanStrings c with
          | .error _ => keywordFallback content
          | .ok cs => ⟨ss, cs⟩

/-! ## Theorems for C4 -/

/-- Helper: a successful list cleaning yields at most 40 entries, all
non-empty. -/
theorem pyCleanStrings_wf {j : PyJson} {l : List String}
    (h : pyCleanStrings j = .ok l) : l.length ≤ 40 ∧ ∀ s ∈ l, s ≠ "" := by
  rw [pyCleanStrings] at h
  rcases hit : pyIter j with e | xs
  · rw [hit] at h; cases h
  · rw [hit] at h
    cases h
    refine ⟨List.length_take_le _ _, fun s hs => ?_⟩
    have hs2 : s ∈ xs.filterMap cleanItem := List.mem_of_mem_take hs
    obtain ⟨a, _, ha⟩ := List.mem_filterMap.mp hs2
    cases a with
    | str s0 =>
      rw [cleanItem] at ha
      by_cases h0 : pyStrip s0 = ""
      · rw [if_pos h0] at ha; cases ha
      · rw [if_neg h0] at ha
        cases ha
        exact h0
    | null => cases ha
    | bool b => cases ha
    | num q => cases ha
    | arr xs2 => cases ha
    | obj kvs => cases ha

/-- Helper: the fallback result is well-formed. -/
theorem keywordFallback_wf (content : String) :
    (keywordFallback content).affected_sectors.length ≤ 40
    ∧ (∀ s ∈ (keywordFallback content).affected_sectors, s ≠ "")
    ∧ (keywordFallback content).named_companies = [] := by
  refine ⟨List.length_take_le _ _, fun s hs => ?_, rfl⟩
  have hs2 : s ∈ (findQuoted content).filterMap stripNonempty :=
    List.mem_of_mem_take hs
  obtain ⟨m, _, hm⟩ := List.mem_filterMap.mp hs2
  rw [stripNonempty] at hm
  by_cases h0 : pyStrip m = ""
  · rw [if_pos h0] at hm; cases hm
  · rw [if_neg h0] at hm
    cases hm
    exact h0

/-- C4: for every JSON-parser behavior and every provider response content —
non-JSON strings, the empty string and JSON objects missing the expected
keys included — `extract_keywords_llm` returns a result whose
`affected_sectors` and `named_companies` are lists of non-empty strings
with at most 40 entries each.  The function is total on this input space,
so no exception propagates to the caller. -/
theorem extract_keywords_wellformed (loads : String → Option PyJson)
    (respContent : String) :
    (extract_keywords_llm loads respContent).affected_sectors.length ≤ 40
    ∧ (extract_keywords_llm loads respContent).named_companies.length ≤ 40
    ∧ (∀ s ∈ (extract_keywords_llm loads respContent).affected_sectors, s ≠ "")
    ∧ (∀ s ∈ (extract_keywords_llm loads respContent).named_companies, s ≠ "") := by
  have hfb : ∀ content : String,
      (keywordFallback content).affected_sectors.length ≤ 40
      ∧ (keywordFallback content).named_companies.length ≤ 40
      ∧ (∀ s ∈ (keywordFallback content).affected_sectors, s ≠ "")
      ∧ (∀ s ∈ (keywordFallback content).named_companies, s ≠ "") := by
    intro content
    obtain ⟨h1, h2, h3⟩ := keywordFallback_wf content
    refine ⟨h1, ?_, h2, ?_⟩
    · rw [h3]; exact Nat.zero_le _
    · rw [h3]; intro s hs; cases hs
  rw [extract_keywords_llm]
  split
  · exact hfb _
  · split
    · exact hfb _
    · split
      · exact hfb _
      · split
        · exact hfb _
        · split
          · exact hfb _
          · rename_i u ss hss v cs hcs
            obtain ⟨hl1, hn1⟩ := pyCleanStrings_wf hss
            obtain ⟨hl2, hn2⟩ := pyCleanStrings_wf hcs
            exact ⟨hl1, hl2, hn1, hn2⟩

/-- C4 witness: a concrete non-JSON response; the extractor returns the quoted
substring as a sector, no companies, within the caps. -/
theorem extract_keywords_wellformed_witness :
    (extract_keywords_llm (fun _ => none) "pick \"banking sector\" only").affected_sectors.length ≤ 40
    ∧ (extract_keywords_llm (fun _ => none) "pick \"banking sector\" only")
        = ⟨["banking sector"], []⟩ :=
  ⟨(extract_keywords_wellformed (fun _ => none) _).1, by decide⟩

/-! ### Sentence-group chunking (src/ingestion/companies/data_ingestion.py, lines 131–137)

`create_sentence_chunks(sentences, sentences_per_chunk=3)` walks
`range(0, len(sentences), sentences_per_chunk)`, joins each group with a
space and appends the stripped group iff `len(chunk.strip()) > 50`.  The
fuel argument (initially the number of sentences) makes the recursion
structural; each step consumes at least one sentence. -/
def create_sentence_chunksFuel : Nat → Nat → List String → List String
  | _, 0, _ => []
  | 0, _ + 1, _ => []
  | _ + 1, _ + 1, [] => []
  | fuel + 1, b + 1, s :: rest =>
    let chunk := pyJoin (" ") ((s :: rest).take (b + 1))
    let tail := create_sentence_chunksFuel fuel (b + 1) ((s :: rest).drop (b + 1))
    if 50 < pyLen (pyStrip chunk) then pyStrip chunk :: tail else tail

/-- Embeds `create_sentence_chunks` with its loop over `range(0, len, spc)`.
(`spc = 0` would raise `ValueError` in Python; all call sites pass 3.) -/
def create_sentence_chunks (sentences : List String) (spc : Nat) : List String :=
  create_sentence_chunksFuel sentences.length spc sentences

/-- Consecutive groups of `n` elements (the last group possibly shorter): the
structural description of the loop's grouping. -/
def groupsOfFuel : Nat → Nat → List α → List (List α)
  | _, 0, _ => []
  | 0, _ + 1, _ => []
  | _ + 1, _ + 1, [] => []
  | fuel + 1, b + 1, x :: xs =>
    (x :: xs).take (b + 1) :: groupsOfFuel fuel (b + 1) ((x :: xs).drop (b + 1))

/-- Consecutive groups of `n` elements of a list. -/
def groupsOf (n : Nat) (l : List α) : List (List α) :=
  groupsOfFuel l.length n l

/-! ## Theorems for C8 -/

/-- Helper: the loop equals a filterMap over the consecutive groups, for any
adequate fuel. -/
theorem create_sentence_chunksFuel_eq (b : Nat) :
    ∀ (fuel : Nat) (l : List String), l.length ≤ fuel →
      create_sentence_chunksFuel fuel (b + 1) l
        = (groupsOfFuel fuel (b + 1) l).filterMap (fun g =>
            let c := pyStrip (pyJoin (" ") g)
            if 50 < pyLen c then some c else none) := by
  intro fuel
  induction fuel with
  | zero =>
    intro l hl
    have : l = [] := List.length_eq_zero.mp (Nat.le_zero.mp hl)
    subst this
    rfl
  | succ fuel ih =>
    intro l hl
    cases l with
    | nil => rfl
    | cons s rest =>
      have hdrop : ((s :: rest).drop (b + 1)).length ≤ fuel := by
        rw [List.length_drop]
        simp only [List.length_cons] at hl ⊢
        omega
      rw [create_sentence_chunksFuel, groupsOfFuel, List.filterMap_cons,
        ih ((s :: rest).drop (b + 1)) hdrop]
      by_cases hlen : 50 < pyLen (pyStrip (pyJoin (" ") ((s :: rest).take (b + 1))))
      · simp only [if_pos hlen]
      · simp only [if_neg hlen]

/-- C8 (as amended): in the sentence-grouping fallback, sentences are grouped
into consecutive groups of 3 and the chunk list is exactly the stripped
group joins whose length is strictly greater than 50 characters — a group
is discarded iff its stripped length is at most 50 (the code tests
`len(chunk.strip()) > 50`, so a group of exactly 50 characters is
discarded), and every group whose stripped length is at least 51 appears. -/
theorem create_sentence_chunks_groups (sentences : List String) :
    create_sentence_chunks sentences 3
      = (groupsOf 3 sentences).filterMap (fun g =>
          let c := pyStrip (pyJoin (" ") g)
          if 50 < pyLen c then some c else none)
    ∧ ∀ g ∈ groupsOf 3 sentences,
        51 ≤ pyLen (pyStrip (pyJoin (" ") g)) →
          pyStrip (pyJoin (" ") g) ∈ create_sentence_chunks sentences 3 := by
  have heq := create_sentence_chunksFuel_eq 2 sentences.length sentences le_rfl
  refine ⟨heq, fun g hg hlen => ?_⟩
  rw [create_sentence_chunks, heq]
  apply List.mem_filterMap.mpr
  refine ⟨g, hg, ?_⟩
  have h50 : 50 < pyLen (pyStrip (pyJoin (" ") g)) := hlen
  simp only [if_pos h50]

/-- C8 witness: a single 60-character sentence survives as one chunk. -/
theorem create_sentence_chunks_groups_witness :
    create_sentence_chunks [String.mk (List.replicate 60 'a')] 3
      = [String.mk (List.replicate 60 'a')] := by
  have h := (create_sentence_chunks_groups [String.mk (List.replicate 60 'a')]).1
  rw [h]
  decide

/-- C8 counterexample: the claim as stated keeps every group whose stripped
length is at least the 50-character threshold.  A single group of exactly
50 characters has stripped length 50 yet is discarded: the code keeps only
groups strictly longer than 50. -/
theorem create_sentence_chunks_50_counterexample :
    pyLen (pyStrip (String.mk (List.replicate 50 'a'))) = 50
    ∧ groupsOf 3 [String.mk (List.replicate 50 'a')]
        = [[String.mk (List.replicate 50 'a')]]
    ∧ create_sentence_chunks [String.mk (List.replicate 50 'a')] 3 = [] := by
  refine ⟨by decide, by decide, by decide⟩

/-! ### Document store and ingestion (src/ingestion/companies/data_ingestion.py)

The relational store is modelled as in-memory tables: `documents` rows,
`doc_chunk` rows and the `SERIAL` id counter.  `asyncpg` statements become
pure state transitions; a raised Python exception becomes `Except.error`.
`datetime.strptime` for the two fixed formats is modelled concretely
(month abbreviations matched exactly; calendar day-of-month validation
simplified to the range 1–31). -/
structure PyDate where
  year : Nat
  month : Nat
  day : Nat
deriving DecidableEq

/-- A parsed `datetime` for `downloaded_on`. -/
structure PyDateTime where
  year : Nat
  month : Nat
  day : Nat
  hour : Nat
  minute : Nat
  second : Nat
deriving DecidableEq

/-- Digit run to a number: `none` unless non-empty and all digits. -/
def digitsToNat (cs : List Char) : Option Nat :=
  if cs ≠ [] ∧ cs.all Char.isDigit then
    some (cs.foldl (fun n c => n * 10 + (c.toNat - 48)) 0)
  else none

/-- The `%b` month abbreviations. -/
def MONTH_ABBRS : List String :=
  ["Jan", "Feb", "Mar", "Apr", "May", "Jun",
   "Jul", "Aug", "Sep", "Oct", "Nov", "Dec"]

/-- Model of `datetime.strptime(s, "%b %d, %Y").date()`: month abbreviation, space,
1–2 digit day, comma, space, up-to-4-digit year. -/
def parseDateBDY (s : String) : Option PyDate :=
  match s.data.splitOn ' ' with
  | [mon, dayPart, yearPart] => do
    let mIdx ← MONTH_ABBRS.indexOf? (String.mk mon)
    guard (dayPart.getLast? = some ',')
    let dayDigits := dayPart.dropLast
    guard (dayDigits.length ≤ 2)
    let day ← digitsToNat dayDigits
    guard (1 ≤ day ∧ day ≤ 31)
    guard (yearPart.length ≤ 4)
    let year ← digitsToNat yearPart
    return ⟨year, mIdx + 1, day⟩
  | _ => none

/-- Model of `datetime.strptime(s, "%Y-%m-%d %H:%M:%S")`. -/
def parseTimestamp (s : String) : Option PyDateTime :=
  match s.data.splitOn ' ' with
  | [datePart, timePart] =>
    match datePart.splitOn '-', timePart.splitOn ':' with
    | [y, m, d], [hh, mi, ss] => do
      let yv ← digitsToNat y
      let mv ← digitsToNat m
      guard (1 ≤ mv ∧ mv ≤ 12)
      let dv ← digitsToNat d
      guard (1 ≤ dv ∧ dv ≤ 31)
      let hv ← digitsToNat hh
      guard (hv ≤ 23)
      let miv ← digitsToNat mi
      guard (miv ≤ 59)
      let sv ← digitsToNat ss
      guard (sv ≤ 59)
      return ⟨yv, mv, dv, hv, miv, sv⟩
    | _, _ => none
  | _ => none

/-- One input record of `ingest_json` (keys already lower-cased, as after the
`{k.lower(): v for k, v in record.items()}` normalization); `record.get(k)`
returns `None` for a missing key. -/
structure Record where
  source : Option String
  source_url : Option String
  source_type : Option String
  date : Option String
  title : Option String
  description : Option String
  detail_url : Option String
  type : Option String
  file_url : Option String
  file_path : Option String
  downloaded_on : Option String
deriving DecidableEq

/-- A `documents` table row. -/
structure DocRow where
  id : Nat
  source : Option String
  source_url : Option String
  source_type : Option String
  date : Option PyDate
  title : Option String
  description : Option String
  detail_url : Option String
  type : Option String
  file_url : Option String
  file_path : Option String
  downloaded_on : Option PyDateTime
deriving DecidableEq

/-- A `doc_chunk` table row (columns of the batched `INSERT`). -/
structure ChunkRow where
  document_id : Nat
  chunk_index : Nat
  chunk_text : String
  combined_text : String
  chunk_embed : Vec
  affected_sectors : List String
  affected_sectors_embed : Option Vec
  named_companies : List String
  named_companies_embed : Option Vec
deriving DecidableEq

/-- The store: both tables plus the next `SERIAL` document id. -/
structure DB where
  documents : List DocRow
  chunks : List ChunkRow
  nextDocId : Nat
deriving DecidableEq

/-- Python truthiness of an optional string (`None` and `""` are falsy). -/
def optTruthy : Option String → Bool
  | none => false
  | some s => !(s == "")

/-- Embeds `check_document_exists` (lines 214–229): `None` for falsy paths, else
`SELECT id FROM documents WHERE file_path = $1 LIMIT 1`. -/
def check_document_exists (db : DB) (fp : Option String) : Option Nat :=
  if optTruthy fp then
    (db.documents.find? (fun row => row.file_path == fp)).map DocRow.id
  else none

/-- Embeds `check_chunks_exist` (lines 232–245):
`SELECT COUNT(*) FROM doc_chunk WHERE document_id = $1`, then
`count > 0 if count else False`. -/
def check_chunks_exist (db : DB) (docId : Nat) : Bool :=
  0 < db.chunks.countP (fun c => c.document_id == docId)

/-- The `date_val` computation of `insert_document`: parse only a truthy `date` value, and
swallow parse failures (`try/except: pass`). -/
def dateValOf (r : Record) : Option PyDate :=
  match r.date with
  | some s => if s = "" then none else parseDateBDY s
  | none => none

/-- The row built by `insert_document`'s `INSERT` for a fresh document id. -/
def mkDocRow (id : Nat) (r : Record) (dl : Option PyDateTime) : DocRow :=
  ⟨id, r.source, r.source_url, r.source_type, dateValOf r, r.title,
   r.description, r.detail_url, r.type, r.file_url, r.file_path, dl⟩

/-- Embeds `insert_document` (lines 248–291): return the existing id if the path is
already present; otherwise parse `date` (failures swallowed) and
`downloaded_on` (failures RAISE: the `strptime` call in the argument list
has no `try`), then insert and return the new id. -/
def insert_document (db : DB) (r : Record) : Except String (DB × Nat) :=
  match check_document_exists db r.file_path with
  | some i => .ok (db, i)
  | none =>
    let dl : Except String (Option PyDateTime) :=
      match r.downloaded_on with
      | some s =>
        if s = "" then .ok none
        else
          match parseTimestamp s with
          | some ts => .ok (some ts)
          | none => .error "ValueError: time data does not match format"
      | none => .ok none
    match dl with
    | .error e => .error e
    | .ok dlv =>
      .ok ({ documents := db.documents ++ [mkDocRow db.nextDocId r dlv],
             chunks := db.chunks,
             nextDocId := db.nextDocId + 1 }, db.nextDocId)

/-- Embeds `sanitize_text` (lines 139–143): remove null bytes and replacement
characters, then strip. -/
def sanitize_text (s : String) : String :=
  if s = "" then ""
  else pyStrip (String.mk (s.data.filter
    (fun c => !(c == Char.ofNat 0) && !(c == Char.ofNat 65533))))

/-- Python `str(x)` of an optional string (`None` prints as `"None"` inside
the f-string). -/
def pyStrOpt : Option String → String
  | none => "None"
  | some s => s

/-- The `combined_text = f"Title: TITLE\nDescription: DESC\n\nCHUNK"` format. -/
def mkCombined (title desc chunk : String) : String :=
  "Title: " ++ title ++ "\nDescription: " ++ desc ++ "\n\n" ++ chunk

/-- The batch loop of `embed_and_store_chunks` (lines 404–429):
`for i in range(0, len(chunks), batch_size)` embeds the batch's combined
texts in one provider call (`embed_documents`) and inserts one row per
`zip(batch, combined_texts, vectors)` element with `chunk_index = i + idx`.
Returns the inserted rows and the number of provider calls.  The fuel
argument (initially the number of chunks) makes the recursion structural;
every iteration consumes at least one chunk. -/
def embedLoopFuel (E : List String → List Vec) (docId : Nat)
    (title desc : String) (secs : List String) (sEmb : Option Vec)
    (comps : List String) (cEmb : Option Vec) :
    Nat → Nat → Nat → List String → List ChunkRow × Nat
  | _, 0, _, _ => ([], 0)
  | 0, _ + 1, _, _ => ([], 0)
  | _ + 1, _ + 1, _, [] => ([], 0)
  | fuel + 1, b + 1, i, c :: cs =>
    let batch := (c :: cs).take (b + 1)
    let combined := batch.map (mkCombined title desc)
    let vectors := E combined
    let rows := (batch.zip (combined.zip vectors)).enum.map
      (fun p => ChunkRow.mk docId (i + p.1) (sanitize_text p.2.1)
        (sanitize_text p.2.2.1) p.2.2.2 secs sEmb comps cEmb)
    let rest := embedLoopFuel E docId title desc secs sEmb comps cEmb
      fuel (b + 1) (i + (b + 1)) ((c :: cs).drop (b + 1))
    (rows ++ rest.1, 1 + rest.2)

/-- Embeds `embed_and_store_chunks` (lines 348–429): default the description to `""`,
embed the joined sector text and joined company text once each when
non-empty (`embed_query`), then run the batch loop (batch size parameter,
default 16).  Returns the inserted chunk rows and the total number of
embedding-provider calls. -/
def embed_and_store_chunks (E : List String → List Vec) (Q : String → Vec)
    (docId : Nat) (title description : Option String) (chunks : List String)
    (sectors companies : List String) (batch_size : Nat) :
    List ChunkRow × Nat :=
  let desc := description.getD ""
  let sectorsText := if sectors.isEmpty then "" else pyJoin (", ") sectors
  let companiesText := if companies.isEmpty then "" else pyJoin (", ") companies
  let sPair : Option Vec × Nat :=
    if sectorsText = "" then (none, 0) else (some (Q sectorsText), 1)
  let cPair : Option Vec × Nat :=
    if companiesText = "" then (none, 0) else (some (Q companiesText), 1)
  let main := embedLoopFuel E docId (pyStrOpt title) desc sectors sPair.1
    companies cPair.1 chunks.length batch_size 0 chunks
  (main.1, sPair.2 + cPair.2 + main.2)

/-- Aggregate outcome counters of an `ingest_json` run. -/
structure Stats where
  processed : Nat
  skipped_duplicates : Nat
  skipped_missing : Nat
  errors : Nat
deriving DecidableEq

/-- State threaded through the ingestion loop: store, counters, and the
running number of embedding-provider calls. -/
structure RunState where
  db : DB
  stats : Stats
  embedCalls : Nat
deriving DecidableEq

/-- External collaborators of the ingestion loop: `os.path.exists`,
`process_pdf` (the chunker), `extract_keywords_llm`, and the two embedding
entry points. -/
structure IngestEnv where
  fileExists : String → Bool
  extractChunks : String → List String
  extractKeywords : String → List String × List String
  embedBatch : List String → List Vec
  embedQuery : String → Vec

/-- Steps 2–4 of the per-record body (chunk, keyword-extract, embed+store),
entered once a document id is fixed. -/
def ingest_process (env : IngestEnv) (st : RunState) (r : Record) (p : String)
    (did : Nat) : RunState :=
  let chunks := env.extractChunks p
  if chunks.isEmpty then
    { st with stats := { st.stats with
        skipped_missing := st.stats.skipped_missing + 1 } }
  else
    let full_text := pyJoin ("\n\n") chunks
    let kw := if pyStrip full_text = "" then ([], [])
      else env.extractKeywords full_text
    let res := embed_and_store_chunks env.embedBatch env.embedQuery did
      r.title r.description chunks kw.1 kw.2 16
    { db := { st.db with chunks := st.db.chunks ++ res.1 },
      stats := { st.stats with processed := st.stats.processed + 1 },
      embedCalls := st.embedCalls + res.2 }

/-- The per-record body of `ingest_json` (lines 454–519): missing-path skip,
duplicate detection against the store, the recovery path for a document
without chunks, document insertion, and processing; the surrounding
`try/except` turns a raised exception (in this model: the unguarded
`downloaded_on` parse of `insert_document`) into an `errors` count. -/
def ingest_record (env : IngestEnv) (st : RunState) (r : Record) : RunState :=
  match r.file_path with
  | none =>
    { st with stats := { st.stats with
        skipped_missing := st.stats.skipped_missing + 1 } }
  | some p =>
    if p = "" ∨ env.fileExists p = false then
      { st with stats := { st.stats with
          skipped_missing := st.stats.skipped_missing + 1 } }
    else
      match check_document_exists st.db (some p) with
      | some did =>
        if check_chunks_exist st.db did then
          { st with stats := { st.stats with
              skipped_duplicates := st.stats.skipped_duplicates + 1 } }
        else ingest_process env st r p did
      | none =>
        match insert_document st.db r with
        | .error _ =>
          { st with stats := { st.stats with errors := st.stats.errors + 1 } }
        | .ok (db2, did) => ingest_process env { st with db := db2 } r p did

/-! ## Theorems for C9 -/

/-- Helper: enumerating a list and keeping `i +` the enumeration index gives
the range starting at `i`. -/
theorem enum_map_add_fst (l : List α) (i : Nat) :
    l.enum.map (fun p => i + p.1) = List.range' i l.length := by
  have h1 : l.enum.map (fun p => i + p.1)
      = (l.enum.map Prod.fst).map (fun n => i + n) := by
    rw [List.map_map]; rfl
  rw [h1, List.enum_map_fst, ← List.range'_eq_map_range]

/-- Helper: adjacent ranges concatenate. -/
theorem range'_add_append (i a c : Nat) :
    List.range' i a ++ List.range' (i + a) c = List.range' i (a + c) := by
  have h := List.range'_append i a c 1
  simp only [one_mul] at h
  rw [h, Nat.add_comm c a]

/-- Helper: the chunk ordinals produced by the batch loop are exactly
`i, i+1, …, i+len-1`, when the embedding provider returns one vector per
input text. -/
theorem embedLoopFuel_indices (E : List String → List Vec) (docId : Nat)
    (title desc : String) (secs : List String) (sEmb : Option Vec)
    (comps : List String) (cEmb : Option Vec) (b : Nat)
    (hE : ∀ l, (E l).length = l.length) :
    ∀ (fuel : Nat) (l : List String) (i : Nat), l.length ≤ fuel →
      ((embedLoopFuel E docId title desc secs sEmb comps cEmb
          fuel (b + 1) i l).1.map (fun row => row.chunk_index))
        = List.range' i l.length := by
  intro fuel
  induction fuel with
  | zero =>
    intro l i hl
    have hnil : l = [] := List.length_eq_zero.mp (Nat.le_zero.mp hl)
    subst hnil
    rfl
  | succ fuel ih =>
    intro l i hl
    cases l with
    | nil => rfl
    | cons c cs =>
      have hrows : ∀ (zl : List (String × (String × Vec))) (j : Nat),
          ((zl.enum.map (fun p => ChunkRow.mk docId (j + p.1)
              (sanitize_text p.2.1) (sanitize_text p.2.2.1) p.2.2.2
              secs sEmb comps cEmb)).map (fun row => row.chunk_index))
            = List.range' j zl.length := by
        intro zl j
        rw [List.map_map]
        exact enum_map_add_fst zl j
      have hdrop : ((c :: cs).drop (b + 1)).length ≤ fuel := by
        rw [List.length_drop]
        simp only [List.length_cons] at hl ⊢
        omega
      have hbl : ((c :: cs).take (b + 1)).length = min (b + 1) (c :: cs).length :=
        List.length_take _ _
      have hzl : (((c :: cs).take (b + 1)).zip
          ((((c :: cs).take (b + 1)).map (mkCombined title desc)).zip
            (E (((c :: cs).take (b + 1)).map (mkCombined title desc))))).length
          = min (b + 1) (c :: cs).length := by
        rw [List.length_zip, List.length_zip, hE, List.length_map]
        simp only [hbl, List.length_cons]
        omega
      rw [embedLoopFuel]
      simp only [List.map_append]
      rw [hrows, ih _ _ hdrop, hzl, List.length_drop]
      by_cases hle : (c :: cs).length ≤ b + 1
      · have hmin : min (b + 1) (c :: cs).length = (c :: cs).length := by omega
        have hdz : (c :: cs).length - (b + 1) = 0 := by omega
        rw [hmin, hdz]
        simp
      · have hmin : min (b + 1) (c :: cs).length = b + 1 := by omega
        rw [hmin]
        have hsum : (b + 1) + ((c :: cs).length - (b + 1)) = (c :: cs).length := by
          omega
        rw [← hsum, ← range'_add_append i (b + 1) ((c :: cs).length - (b + 1)), hsum]

/-- Helper: every row produced by the batch loop carries the given document
id. -/
theorem embedLoopFuel_docId (E : List String → List Vec) (docId : Nat)
    (title desc : String) (secs : List String) (sEmb : Option Vec)
    (comps : List String) (cEmb : Option Vec) (bs : Nat) :
    ∀ (fuel : Nat) (i : Nat) (l : List String),
      ∀ row ∈ (embedLoopFuel E docId title desc secs sEmb comps cEmb
          fuel bs i l).1, row.document_id = docId := by
  intro fuel
  induction fuel with
  | zero =>
    intro i l row hrow
    cases bs with
    | zero => cases hrow
    | succ b => cases hrow
  | succ fuel ih =>
    intro i l row hrow
    cases bs with
    | zero => cases hrow
    | succ b =>
      cases l with
      | nil => cases hrow
      | cons c cs =>
        rw [embedLoopFuel] at hrow
        rcases List.mem_append.mp hrow with h | h
        · obtain ⟨p, _, hp⟩ := List.mem_map.mp h
          rw [← hp]
        · exact ih _ _ row h

/-- C9: for any chunk list of length K and any positive batch size (the
default call passes 16), the chunk-storage operation inserts exactly K rows
whose `chunk_index` values are exactly `0 … K-1` in order — no gaps, no
duplicates — provided the embedding provider returns one vector per input
text of a batch. -/
theorem embed_and_store_chunks_contiguity (E : List String → List Vec)
    (Q : String → Vec) (docId : Nat) (title description : Option String)
    (chunks : List String) (sectors companies : List String) (b : Nat)
    (hE : ∀ l, (E l).length = l.length) :
    ((embed_and_store_chunks E Q docId title description chunks sectors
        companies (b + 1)).1.map (fun row => row.chunk_index))
      = List.range chunks.length
    ∧ (embed_and_store_chunks E Q docId title description chunks sectors
        companies (b + 1)).1.length = chunks.length := by
  have hmap : ((embed_and_store_chunks E Q docId title description chunks
      sectors companies (b + 1)).1.map (fun row => row.chunk_index))
      = List.range' 0 chunks.length := by
    rw [embed_and_store_chunks]
    exact embedLoopFuel_indices E docId _ _ _ _ _ _ b hE chunks.length chunks 0
      le_rfl
  constructor
  · rw [hmap, List.range_eq_range']
  · have hlen := congrArg List.length hmap
    rw [List.length_map] at hlen
    rw [hlen]
    simp [List.length_range']

/-- C9 witness: three chunks, batch size 16, a provider returning one vector
per text: ordinals are `[0, 1, 2]`. -/
theorem embed_and_store_chunks_contiguity_witness :
    ((embed_and_store_chunks (fun l => l.map (fun _ => ([] : Vec)))
        (fun _ => ([] : Vec)) 7 none none ["alpha", "beta", "gamma"] [] []
        16).1.map (fun row => row.chunk_index)) = [0, 1, 2] := by
  have h := (embed_and_store_chunks_contiguity
    (fun l => l.map (fun _ => ([] : Vec))) (fun _ => ([] : Vec)) 7 none none
    ["alpha", "beta", "gamma"] [] [] 15
    (fun l => List.length_map l (fun _ => ([] : Vec)))).1
  exact h

/-! ## Theorems for C10 -/

/-- The empty store (next `SERIAL` id 1, as in a fresh database). -/
def emptyDB : DB := ⟨[], [], 1⟩

/-- A record with an ISO date (unparseable by `%b %d, %Y`) and a malformed
`downloaded_on`. -/
def recBadDownloaded : Record :=
  ⟨none, none, none, some "2025-01-05", none, none, none, none, none,
   some "/tmp/a.pdf", some "not a timestamp"⟩

/-- A record with an ISO date and no `downloaded_on`. -/
def recIsoDate : Record :=
  ⟨some "RBI", none, none, some "2025-01-05", some "Some title", none, none,
   none, none, some "/tmp/b.pdf", none⟩

/-- C10 counterexample: the claim as stated says `insert_document` never
raises for a record whose `date` does not match `%b %d, %Y`.  But the
`downloaded_on` parse in the `INSERT` argument list is not guarded by any
`try`, so the record `recBadDownloaded` (unparseable date AND malformed
`downloaded_on`) raises `ValueError` instead of inserting. -/
theorem insert_document_raises_counterexample :
    parseDateBDY "2025-01-05" = none
    ∧ insert_document emptyDB recBadDownloaded
        = .error "ValueError: time data does not match format" := by
  constructor
  · decide
  · rfl

/-- C10 (as amended): for a record whose `date` string does not parse with
`%b %d, %Y`, whose `file_path` is not already present, and whose
`downloaded_on` is absent, empty, or well-formed, `insert_document` does
not raise: it appends exactly one row whose `date` is null — the
unparseable date is silently dropped — while every other supplied field is
stored as given (`downloaded_on` as its parsed timestamp). -/
theorem insert_document_unparseable_date (db : DB) (r : Record) (d : String)
    (hd : r.date = some d) (hparse : parseDateBDY d = none)
    (hnew : check_document_exists db r.file_path = none)
    (hdl : r.downloaded_on = none ∨ r.downloaded_on = some ""
      ∨ ∃ s ts, r.downloaded_on = some s ∧ parseTimestamp s = some ts) :
    ∃ dl, insert_document db r
        = .ok ({ documents := db.documents ++ [mkDocRow db.nextDocId r dl],
                 chunks := db.chunks, nextDocId := db.nextDocId + 1 },
               db.nextDocId)
      ∧ (mkDocRow db.nextDocId r dl).date = none
      ∧ (mkDocRow db.nextDocId r dl).source = r.source
      ∧ (mkDocRow db.nextDocId r dl).source_url = r.source_url
      ∧ (mkDocRow db.nextDocId r dl).source_type = r.source_type
      ∧ (mkDocRow db.nextDocId r dl).title = r.title
      ∧ (mkDocRow db.nextDocId r dl).description = r.description
      ∧ (mkDocRow db.nextDocId r dl).detail_url = r.detail_url
      ∧ (mkDocRow db.nextDocId r dl).type = r.type
      ∧ (mkDocRow db.nextDocId r dl).file_url = r.file_url
      ∧ (mkDocRow db.nextDocId r dl).file_path = r.file_path := by
  have hdv : dateValOf r = none := by
    rw [dateValOf, hd]
    dsimp only
    by_cases h0 : d = ""
    · rw [if_pos h0]
    · rw [if_neg h0, hparse]
  have hrowdate : ∀ dl, (mkDocRow db.nextDocId r dl).date = none := by
    intro dl
    show dateValOf r = none
    exact hdv
  rcases hdl with h | h | ⟨s, ts, hs, hts⟩
  · refine ⟨none, ?_, hrowdate none, rfl, rfl, rfl, rfl, rfl, rfl, rfl, rfl, rfl⟩
    rw [insert_document, hnew, h]
  · refine ⟨none, ?_, hrowdate none, rfl, rfl, rfl, rfl, rfl, rfl, rfl, rfl, rfl⟩
    rw [insert_document, hnew, h]
    rfl
  · refine ⟨some ts, ?_, hrowdate (some ts), rfl, rfl, rfl, rfl, rfl, rfl, rfl,
      rfl, rfl⟩
    by_cases h0 : s = ""
    · subst h0
      have hnone : parseTimestamp "" = none := rfl
      rw [hnone] at hts
      cases hts
    · rw [insert_document, hnew, hs]
      dsimp only
      rw [if_neg h0, hts]

/-- C10 witness: the ISO-dated record inserted into the empty store. -/
theorem insert_document_unparseable_date_witness :
    ∃ dl, insert_document emptyDB recIsoDate
        = .ok ({ documents := emptyDB.documents
                   ++ [mkDocRow emptyDB.nextDocId recIsoDate dl],
                 chunks := emptyDB.chunks,
                 nextDocId := emptyDB.nextDocId + 1 }, emptyDB.nextDocId)
      ∧ (mkDocRow emptyDB.nextDocId recIsoDate dl).date = none := by
  obtain ⟨dl, h1, h2, _⟩ := insert_document_unparseable_date emptyDB recIsoDate
    "2025-01-05" rfl (by decide) (by decide) (Or.inl rfl)
  exact ⟨dl, h1, h2⟩

/-! ## Theorems for C5 -/

/-- Helper: inserting a fresh document (path not present, `downloaded_on`
well-formed) appends exactly one row and returns the new id. -/
theorem insert_document_fresh (db : DB) (r : Record)
    (hnone : check_document_exists db r.file_path = none)
    (hdl : r.downloaded_on = none ∨ r.downloaded_on = some ""
      ∨ ∃ s ts, r.downloaded_on = some s ∧ parseTimestamp s = some ts) :
    ∃ dl, insert_document db r
      = .ok ({ documents := db.documents ++ [mkDocRow db.nextDocId r dl],
               chunks := db.chunks, nextDocId := db.nextDocId + 1 },
             db.nextDocId) := by
  rcases hdl with h | h | ⟨s, ts, hs, hts⟩
  · refine ⟨none, ?_⟩
    rw [insert_document, hnone, h]
  · refine ⟨none, ?_⟩
    rw [insert_document, hnone, h]
    try rfl
  · refine ⟨some ts, ?_⟩
    by_cases h0 : s = ""
    · subst h0
      have hnone2 : parseTimestamp "" = none := rfl
      rw [hnone2] at hts
      cases hts
    · rw [insert_document, hnone, hs]
      dsimp only
      rw [if_neg h0, hts]

/-- Helper: number of rows written by `embed_and_store_chunks` = number of
chunks, for a positive batch size and a one-vector-per-text provider. -/
theorem embed_rows_length (E : List String → List Vec) (Q : String → Vec)
    (docId : Nat) (title description : Option String) (chunks : List String)
    (sectors companies : List String) (b : Nat)
    (hE : ∀ l, (E l).length = l.length) :
    (embed_and_store_chunks E Q docId title description chunks sectors
        companies (b + 1)).1.length = chunks.length := by
  have hmap : ((embed_and_store_chunks E Q docId title description chunks
      sectors companies (b + 1)).1.map (fun row => row.chunk_index))
      = List.range' 0 chunks.length := by
    rw [embed_and_store_chunks]
    exact embedLoopFuel_indices E docId _ _ _ _ _ _ b hE chunks.length chunks 0
      le_rfl
  have hlen := congrArg List.length hmap
  rw [List.length_map] at hlen
  rw [hlen]
  simp [List.length_range']

/-- Helper: every row written by `embed_and_store_chunks` carries the given
document id. -/
theorem embed_rows_docId (E : List String → List Vec) (Q : String → Vec)
    (docId : Nat) (title description : Option String) (chunks : List String)
    (sectors companies : List String) (bs : Nat) :
    ∀ row ∈ (embed_and_store_chunks E Q docId title description chunks sectors
        companies bs).1, row.document_id = docId := by
  intro row hrow
  rw [embed_and_store_chunks] at hrow
  exact embedLoopFuel_docId E docId _ _ _ _ _ _ bs _ _ _ row hrow

/-- C5: duplicate-detecting idempotence of the ingestion over one record.
Main part: if the record's `file_path` is a non-empty path of an existing
file that identifies exactly one stored document which already has at least
one chunk row, then re-running the ingestion over the record (a) leaves the
run state unchanged except for incrementing the skipped-duplicates counter —
in particular (b) the store, (c) the number of embedding-provider calls,
(e) the set of document rows for that path (still exactly one) and (f) the
chunk rows are untouched, while (d) counts the skip.
Composition part: starting instead from a store with no document for the
path, with a chunker yielding at least one chunk, a one-vector-per-text
provider and a well-formed `downloaded_on`, ingesting the record twice
yields exactly one document row for the path, and the second run is
exactly the first run's state with the skipped-duplicates counter
incremented — zero inserts and zero embedding calls on the second run. -/
theorem ingest_duplicate_idempotent (env : IngestEnv) (st : RunState)
    (r : Record) (p : String) (did : Nat)
    (hp : r.file_path = some p) (hpne : p ≠ "")
    (hfe : env.fileExists p = true)
    (hex : check_document_exists st.db (some p) = some did)
    (hch : check_chunks_exist st.db did = true)
    (huni : st.db.documents.countP (fun row => row.file_path == some p) = 1) :
    (ingest_record env st r
        = { st with stats := { st.stats with
            skipped_duplicates := st.stats.skipped_duplicates + 1 } }
      ∧ (ingest_record env st r).db = st.db
      ∧ (ingest_record env st r).embedCalls = st.embedCalls
      ∧ (ingest_record env st r).stats.skipped_duplicates
          = st.stats.skipped_duplicates + 1
      ∧ (ingest_record env st r).db.documents.countP
          (fun row => row.file_path == some p) = 1
      ∧ (ingest_record env st r).db.chunks = st.db.chunks)
    ∧ (∀ st0 : RunState,
        check_document_exists st0.db (some p) = none →
        env.extractChunks p ≠ [] →
        (∀ l, (env.embedBatch l).length = l.length) →
        (r.downloaded_on = none ∨ r.downloaded_on = some ""
          ∨ ∃ s ts, r.downloaded_on = some s ∧ parseTimestamp s = some ts) →
        (ingest_record env st0 r).db.documents.countP
            (fun row => row.file_path == some p) = 1
        ∧ ingest_record env (ingest_record env st0 r) r
            = { ingest_record env st0 r with stats :=
                { (ingest_record env st0 r).stats with skipped_duplicates :=
                    (ingest_record env st0 r).stats.skipped_duplicates + 1 } }) := by
  have htruthy : optTruthy (some p) = true := by
    rw [optTruthy]
    simp [hpne]
  have hcond : ¬(p = "" ∨ env.fileExists p = false) := by
    rintro (h | h)
    · exact hpne h
    · cases hfe.symm.trans h
  constructor
  · have hstep : ingest_record env st r
        = { st with stats := { st.stats with
            skipped_duplicates := st.stats.skipped_duplicates + 1 } } := by
      rw [ingest_record, hp]
      dsimp only
      rw [if_neg hcond, hex]
      dsimp only
      rw [if_pos hch]
    refine ⟨hstep, by rw [hstep], by rw [hstep], by rw [hstep], ?_, by rw [hstep]⟩
    rw [hstep]
    exact huni
  · intro st0 hnone hchunks hEB hdl
    have hnone2 : check_document_exists st0.db r.file_path = none := by
      rw [hp]; exact hnone
    obtain ⟨dl, hins⟩ := insert_document_fresh st0.db r hnone2 hdl
    have hrowfp : (mkDocRow st0.db.nextDocId r dl).file_path = some p := hp
    have hrowbeq : ((mkDocRow st0.db.nextDocId r dl).file_path == some p) = true := by
      rw [hrowfp]
      exact beq_self_eq_true _
    have hne2 : ¬ ((env.extractChunks p).isEmpty = true) := fun h =>
      hchunks (List.isEmpty_iff.mp h)
    have hrun1 : ingest_record env st0 r
        = ingest_process env
            { st0 with db :=
              { documents := st0.db.documents ++ [mkDocRow st0.db.nextDocId r dl],
                chunks := st0.db.chunks,
                nextDocId := st0.db.nextDocId + 1 } }
            r p st0.db.nextDocId := by
      rw [ingest_record, hp]
      dsimp only
      rw [if_neg hcond, hnone]
      dsimp only
      rw [hins]
    have hdocs1 : (ingest_record env st0 r).db.documents
        = st0.db.documents ++ [mkDocRow st0.db.nextDocId r dl] := by
      rw [hrun1, ingest_process]
      dsimp only
      rw [if_neg hne2]
    have hchunks1 : ∃ rows : List ChunkRow,
        (ingest_record env st0 r).db.chunks = st0.db.chunks ++ rows
        ∧ rows.length = (env.extractChunks p).length
        ∧ ∀ c ∈ rows, c.document_id = st0.db.nextDocId := by
      rw [hrun1, ingest_process]
      dsimp only
      rw [if_neg hne2]
      dsimp only
      refine ⟨_, rfl, ?_, ?_⟩
      · exact embed_rows_length env.embedBatch env.embedQuery st0.db.nextDocId
          r.title r.description (env.extractChunks p) _ _ 15 hEB
      · exact embed_rows_docId env.embedBatch env.embedQuery st0.db.nextDocId
          r.title r.description (env.extractChunks p) _ _ 16
    have hfind0 : st0.db.documents.find?
        (fun row => row.file_path == some p) = none := by
      rw [check_document_exists, if_pos htruthy] at hnone
      exact Option.map_eq_none'.mp hnone
    have hcount0 : st0.db.documents.countP
        (fun row => row.file_path == some p) = 0 := by
      rw [List.countP_eq_zero]
      intro a ha
      exact List.find?_eq_none.mp hfind0 a ha
    have hcount1 : (ingest_record env st0 r).db.documents.countP
        (fun row => row.file_path == some p) = 1 := by
      rw [hdocs1, List.countP_append, hcount0]
      simp [List.countP_cons, hrowbeq]
    have hfind1 : (ingest_record env st0 r).db.documents.find?
        (fun row => row.file_path == some p)
        = some (mkDocRow st0.db.nextDocId r dl) := by
      rw [hdocs1, List.find?_append, hfind0]
      simp [List.find?_cons, hrowbeq]
    have hex1 : check_document_exists (ingest_record env st0 r).db (some p)
        = some st0.db.nextDocId := by
      rw [check_document_exists, if_pos htruthy, hfind1]
      rfl
    have hch1 : check_chunks_exist (ingest_record env st0 r).db
        st0.db.nextDocId = true := by
      obtain ⟨rows, hc, hlenR, hdocR⟩ := hchunks1
      have hcR : rows.countP
          (fun c => c.document_id == st0.db.nextDocId) = rows.length := by
        rw [List.countP_eq_length]
        intro c hcm
        rw [hdocR c hcm]
        exact beq_self_eq_true _
      have hpos : 0 < (ingest_record env st0 r).db.chunks.countP
          (fun c => c.document_id == st0.db.nextDocId) := by
        rw [hc, List.countP_append, hcR, hlenR]
        have := List.length_pos.mpr hchunks
        omega
      exact decide_eq_true hpos
    refine ⟨hcount1, ?_⟩
    rw [ingest_record, hp]
    dsimp only
    rw [if_neg hcond, hex1]
    dsimp only
    rw [if_pos hch1]

/-! ### Retrieval logging (src/rag/rag_db.py, lines 97–163)

`DatabaseRAGPipeline._retrieve_chunks` invokes the vector-store retriever,
returns `[]` at once when no documents come back, otherwise builds one
result row per document (enriched from the `documents` table when a
`document_id` is present) and collects
`chunk_id = metadata.get("id") or metadata.get("chunk_id")` values that are
not `None` and survive `int(...)`; it inserts one `retrieval_logs` row with
the query and those ids only when the collected list is non-empty.
Metadata values are Python ints or strings (`PyVal`); the retriever's
output and the `documents` table are inputs.  (Python `int(str)` is
approximated by `String.toInt?`; the witness and counterexample use
integer metadata only.) -/
inductive PyVal where
  | int (n : Int)
  | str (s : String)
deriving DecidableEq

/-- Python truthiness for metadata values. -/
def pyTruthy : PyVal → Bool
  | .int n => !(n == 0)
  | .str s => !(s == "")

/-- Python `a or b` over optional values (`dict.get` returns `None` when the
key is absent). -/
def pyOrOpt (a b : Option PyVal) : Option PyVal :=
  match a with
  | some v => if pyTruthy v then some v else b
  | none => b

/-- Python `int(x)`: identity on ints, digit parsing on strings (`None` =
`ValueError`/`TypeError`). -/
def pyToInt : PyVal → Option Int
  | .int n => some n
  | .str s => s.toInt?

/-- A document returned by the retriever: `page_content` plus the used
metadata entries (`id`, `chunk_id`, `document_id`); `none` = key absent. -/
structure RDoc where
  page_content : String
  metaId : Option PyVal
  metaChunkId : Option PyVal
  metaDocId : Option PyVal
deriving DecidableEq

/-- The id collected into `chunk_ids` for one document, if any:
`chunk_id = metadata.get("id") or metadata.get("chunk_id")`, skipped when
`None`, then `int(chunk_id)` with failures swallowed. -/
def extractChunkId (d : RDoc) : Option Int :=
  match pyOrOpt d.metaId d.metaChunkId with
  | none => none
  | some v => pyToInt v

/-- The columns selected from `documents` for enrichment. -/
structure DocMeta where
  source : Option String
  source_type : Option String
  title : Option String
  date : Option PyDate
  file_path : Option String
deriving DecidableEq

/-- One result row of `_retrieve_chunks`. -/
structure RowOut where
  chunk_id : Option PyVal
  document_id : Option PyVal
  chunk_text : String
  combined_text : String
  meta : Option DocMeta
deriving DecidableEq

/-- Build one result row (`row.update(doc_row)` modelled as the `meta`
field, filled only when `document_id` is present and found). -/
def mkRow (docTable : PyVal → Option DocMeta) (d : RDoc) : RowOut :=
  ⟨pyOrOpt d.metaId d.metaChunkId, d.metaDocId, d.page_content, d.page_content,
   d.metaDocId.bind docTable⟩

/-- A `retrieval_logs` row. -/
structure LogRow where
  query : String
  retrieved_chunk_ids : List Int
deriving DecidableEq

/-- Embeds `_retrieve_chunks`, as a transition on the `retrieval_logs` table.  The
date normalization of the returned rows is omitted (it does not touch the
log). -/
def retrieve_chunks (docTable : PyVal → Option DocMeta) (logs : List LogRow)
    (question : String) (docs : List RDoc) : List RowOut × List LogRow :=
  if docs.isEmpty then ([], logs)
  else
    let results := docs.map (mkRow docTable)
    let chunk_ids := docs.filterMap extractChunkId
    if chunk_ids.isEmpty then (results, logs)
    else (results, logs ++ [⟨question, chunk_ids⟩])

/-! ## Theorems for C6 -/

/-- C6 counterexample: the claim as stated writes a log row iff at least one
chunk was returned.  For a retriever result with one document whose
metadata has neither `id` nor `chunk_id`, one chunk is returned but no log
row is written. -/
theorem retrieve_chunks_log_counterexample :
    (retrieve_chunks (fun _ => none) [] "what changed"
        [⟨"some chunk text", none, none, some (.int 7)⟩]).1.length = 1
    ∧ (retrieve_chunks (fun _ => none) [] "what changed"
        [⟨"some chunk text", none, none, some (.int 7)⟩]).2 = [] := by
  constructor
  · rfl
  · rfl

/-- C6 (as amended): a completed retrieval call appends exactly one
retrieval-log row — containing the query text and the list of
integer-convertible identifiers of the returned chunks — if and only if
that list is non-empty; the log is append-only, and when zero chunks are
returned (or no returned chunk has a usable identifier) no log row is
written and the results are empty resp. one row per returned chunk. -/
theorem retrieve_chunks_logging (docTable : PyVal → Option DocMeta)
    (logs : List LogRow) (q : String) (docs : List RDoc) :
    ((retrieve_chunks docTable logs q docs).2
        = logs ++ (if (docs.filterMap extractChunkId).isEmpty then []
            else [⟨q, docs.filterMap extractChunkId⟩]))
    ∧ ((retrieve_chunks docTable logs q docs).2.take logs.length = logs)
    ∧ ((retrieve_chunks docTable logs q docs).2.length
        = logs.length
          + (if (docs.filterMap extractChunkId).isEmpty then 0 else 1))
    ∧ (docs = [] → (retrieve_chunks docTable logs q docs).1 = []
        ∧ (retrieve_chunks docTable logs q docs).2 = logs)
    ∧ (docs ≠ [] →
        (retrieve_chunks docTable logs q docs).1 = docs.map (mkRow docTable)) := by
  have heq : (retrieve_chunks docTable logs q docs).2
      = logs ++ (if (docs.filterMap extractChunkId).isEmpty then []
          else [⟨q, docs.filterMap extractChunkId⟩]) := by
    rw [retrieve_chunks]
    by_cases hd : docs.isEmpty
    · rw [if_pos hd]
      have hnil : docs = [] := List.isEmpty_iff.mp hd
      subst hnil
      simp
    · rw [if_neg hd]
      dsimp only
      by_cases hi : (docs.filterMap extractChunkId).isEmpty
      · rw [if_pos hi, if_pos hi]
        simp
      · rw [if_neg hi, if_neg hi]
  refine ⟨heq, ?_, ?_, ?_, ?_⟩
  · rw [heq]
    exact List.take_left logs _
  · rw [heq, List.length_append]
    by_cases hi : (docs.filterMap extractChunkId).isEmpty
    · rw [if_pos hi, if_pos hi]
      rfl
    · rw [if_neg hi, if_neg hi]
      rfl
  · intro hd
    subst hd
    exact ⟨rfl, rfl⟩
  · intro hd
    rw [retrieve_chunks]
    have hne : ¬ (docs.isEmpty = true) := fun h => hd (List.isEmpty_iff.mp h)
    rw [if_neg hne]
    dsimp only
    by_cases hi : (docs.filterMap extractChunkId).isEmpty
    · rw [if_pos hi]
    · rw [if_neg hi]

/-- C6 witness: one returned chunk with metadata id 5 — exactly one log row,
holding the query and `[5]`. -/
theorem retrieve_chunks_logging_witness :
    (retrieve_chunks (fun _ => none) [] "q"
        [⟨"txt", some (.int 5), none, none⟩]).2 = [⟨"q", [5]⟩] := by
  have h := (retrieve_chunks_logging (fun _ => none) [] "q"
    [⟨"txt", some (.int 5), none, none⟩]).1
  have hids : ([(⟨"txt", some (.int 5), none, none⟩ : RDoc)].filterMap
      extractChunkId) = [5] := by decide
  rw [h, hids]
  rfl

/-- C5 witness environment: every path exists, the chunker yields one chunk,
keyword extraction yields nothing, the provider returns one empty vector
per text. -/
def envX : IngestEnv :=
  ⟨fun _ => true, fun _ => ["chunk one text"], fun _ => ([], []),
   fun l => l.map (fun _ => []), fun _ => []⟩

/-- C5 witness store: one document at `/tmp/x.pdf` that already has a chunk. -/
def stX : RunState :=
  ⟨⟨[⟨1, none, none, none, none, none, none, none, none, none,
      some "/tmp/x.pdf", none⟩],
    [⟨1, 0, "t", "c", [], [], none, [], none⟩], 2⟩,
   ⟨0, 0, 0, 0⟩, 0⟩

/-- C5 witness record: the same `file_path` ingested again. -/
def recX : Record :=
  ⟨none, none, none, none, none, none, none, none, none,
   some "/tmp/x.pdf", none⟩

/-- C5 witness: re-ingesting `recX` over `stX` only bumps the
skipped-duplicates counter. -/
theorem ingest_duplicate_idempotent_witness :
    ingest_record envX stX recX
      = { stX with stats := { stX.stats with skipped_duplicates := 1 } } :=
  (ingest_duplicate_idempotent envX stX recX "/tmp/x.pdf" 1 rfl (by decide)
    rfl (by decide) (by decide) (by decide)).1.1
